import Mathlib

/-!
Verification of the de novo clustering core of the denovonear repository.

The development shallowly embeds the class AnalyseDeNovos from
analyse_de_novos.py, together with the conservation-score loader from
denovonear/interval_conservation_methods.py.  Python numbers are modelled
as exact values: genomic and CDS positions are integers, and the mean
distances and probabilities produced by true division are rationals
(the sibling modules of the analysed file all activate true division
via the division feature import, and the spec states the 40/3 example).

Randomness is modelled by a draw stream: the WeightedChoice object used
by the source is represented by the sequence of values its choice()
method returns, a function from the index of the call to the sampled
CDS position.  The transcript object (class Interval, whose file is not
among the analysed sources) is represented by an abstract interface of
the four methods the analysed code calls on it.

Python exceptions are modelled with Except over an explicit error type.
-/

namespace Denovonear

/-- Python exception kinds raised or propagated by the embedded code. -/
inductive PyError where
  | valueError (msg : String)
  | assertionError
  | zeroDivisionError
  | keyError
deriving DecidableEq

instance {ε α : Type} [DecidableEq ε] [DecidableEq α] : DecidableEq (Except ε α) := fun x y =>
  match x, y with
  | .ok a, .ok b => decidable_of_iff (a = b) (by simp)
  | .error a, .error b => decidable_of_iff (a = b) (by simp)
  | .ok _, .error _ => isFalse (fun h => Except.noConfusion h)
  | .error _, .ok _ => isFalse (fun h => Except.noConfusion h)

/-- Embeds the Python loop
    for x in l: out.append(f(x))
    where the body may raise: the first raised error propagates and the
    loop produces the list of results otherwise. -/
def mapE {α β : Type} (f : α → Except PyError β) : List α → Except PyError (List β)
  | [] => .ok []
  | x :: xs =>
    match f x with
    | .error e => .error e
    | .ok y =>
      match mapE f xs with
      | .error e => .error e
      | .ok ys => .ok (y :: ys)

/-- Embeds itertools.combinations(positions, 2): all unordered pairs of
    list elements, each pair of indices i < j emitted exactly once, in
    lexicographic index order. -/
def pairs : List ℤ → List (ℤ × ℤ)
  | [] => []
  | x :: xs => xs.map (fun y => (x, y)) ++ pairs xs

/-- Embeds AnalyseDeNovos.get_mean_distance_between_positions.  The source
    first asserts len(positions) > 1; every call site of the analysed code
    satisfies that bound, and the claims only concern lists of length at
    least two, so the function is left total (the default branch is junk
    for shorter lists, which the source would reject by the assertion).
    For exactly two positions the source returns abs(p0 - p1); otherwise it
    averages the absolute differences over itertools.combinations(positions, 2). -/
def get_mean_distance_between_positions (positions : List ℤ) : ℚ :=
  match positions with
  | [a, b] => ((|a - b| : ℤ) : ℚ)
  | _ =>
    let distances := (pairs positions).map (fun p => |p.1 - p.2|)
    ((distances.sum : ℤ) : ℚ) / (distances.length : ℚ)

/-- Spec-side definition, following the words of the spec only: the sum of
    the absolute pairwise differences over all unordered index pairs i < j
    of the position list.  Dividing by C(N, 2) gives the arithmetic mean
    over all C(N, 2) unordered pairs that the spec describes. -/
def pairwiseAbsSum (positions : List ℤ) : ℤ :=
  ∑ i ∈ Finset.range positions.length, ∑ j ∈ Finset.range positions.length,
    if i < j then |positions.getD i 0 - positions.getD j 0| else 0

/-- Embeds the loop of the Python standard library function
    bisect.bisect_right(a, x) with explicit bounds lo and hi:
    while lo < hi: mid = (lo + hi) // 2;
    if x < a[mid]: hi = mid else lo = mid + 1.
    The fuel argument bounds the number of iterations; since hi - lo
    strictly decreases on every iteration, any fuel of at least hi - lo
    reproduces the Python loop exactly. -/
def bisect_right_loop (a : List ℚ) (x : ℚ) : ℕ → ℕ → ℕ → ℕ
  | 0, lo, _ => lo
  | fuel + 1, lo, hi =>
    if lo < hi then
      if x < a.getD ((lo + hi) / 2) 0 then bisect_right_loop a x fuel lo ((lo + hi) / 2)
      else bisect_right_loop a x fuel ((lo + hi) / 2 + 1) hi
    else lo

/-- Embeds bisect.bisect_right(a, x): lo starts at 0, hi at len(a); the
    initial fuel len(a) dominates hi - lo. -/
def bisect_right (a : List ℚ) (x : ℚ) : ℕ :=
  bisect_right_loop a x a.length 0 a.length

/-- Interface of the transcript object consumed by AnalyseDeNovos.
    Modelled from the spec: the Interval class supplying these four methods
    is an external collaborator of the clustering core and its file is not
    among the analysed sources; section 3 of the spec describes it as
    read-only transcript geometry.  get_coding_distance returns none where
    the source method raises AssertionError (position not in the CDS). -/
structure Transcript where
  get_cds_start : ℤ
  get_coding_distance : ℤ → ℤ → Option ℤ
  find_closest_exon : ℤ → ℤ × ℤ
  get_name : String

/-- Embeds the body of the conversion loop of
    AnalyseDeNovos.convert_de_novos_to_cds_positions for one position:
    try the direct CDS mapping; on AssertionError take the closest exon,
    and if the position is within 2 bp of the exon start boundary (checked
    first) or of the exon end boundary, map that boundary; otherwise raise
    ValueError with the message built by the source (which interpolates
    max(start_dist, end_dist)).  An AssertionError raised while mapping the
    chosen boundary itself is not caught by the source and propagates. -/
def convert_one (t : Transcript) (cds_start pos : ℤ) : Except PyError ℤ :=
  match t.get_coding_distance cds_start pos with
  | some dist => .ok dist
  | none =>
    let se := t.find_closest_exon pos
    let start_dist := |se.1 - pos|
    let end_dist := |se.2 - pos|
    if start_dist < 3 then
      match t.get_coding_distance cds_start se.1 with
      | some dist => .ok dist
      | none => .error .assertionError
    else if end_dist < 3 then
      match t.get_coding_distance cds_start se.2 with
      | some dist => .ok dist
      | none => .error .assertionError
    else
      .error (.valueError ("distance to exon (" ++ toString (max start_dist end_dist) ++
        ") > 2 bp for " ++ toString pos ++ " in transcript " ++ t.get_name))

/-- Embeds AnalyseDeNovos.convert_de_novos_to_cds_positions: the CDS start
    is fetched once and each de novo position is converted in order, the
    first error propagating. -/
def convert_de_novos_to_cds_positions (t : Transcript) (de_novos : List ℤ) :
    Except PyError (List ℤ) :=
  mapE (fun pos => convert_one t t.get_cds_start pos) de_novos

/-- Floor of a rational as an integer, computed as in the standard
    representation: numerator divided by denominator with Euclidean
    division (the denominator is positive). -/
def rfloor (q : ℚ) : ℤ := q.num / q.den

/-- Rounding of a rational to the nearest integer with ties to even, the
    rounding rule Python applies when formatting with one decimal place. -/
def round_half_even (q : ℚ) : ℤ :=
  let fl := rfloor q
  let frac := q - fl
  if frac < 1 / 2 then fl
  else if 1 / 2 < frac then fl + 1
  else if fl % 2 = 0 then fl else fl + 1

/-- Embeds the Python one-decimal-place float format applied by
    analyse_de_novos to the observed distance.  The observed distance is a
    nonnegative exact rational in this model, so the format rounds ten
    times the value to the nearest integer (ties to even) and prints
    integer part, a dot and the single remaining digit.  The source rounds
    the nearest binary double instead of the exact rational; the claims
    under verification do not depend on that difference. -/
def format_one_dp (q : ℚ) : String :=
  let m := round_half_even (q * 10)
  toString (m / 10) ++ "." ++ toString (m % 10)

/-- Positions drawn in one iteration of the simulation loop: iteration i
    consumes the next sample_n values of the draw stream, namely the
    entries of the stream at indices i * sample_n + j for j < sample_n. -/
def iteration_draw (choice : ℕ → ℤ) (sample_n iteration : ℕ) : List ℤ :=
  (List.range sample_n).map (fun j => choice (iteration * sample_n + j))

/-- Embeds AnalyseDeNovos.build_distance_distribution: run max_iter
    iterations, each drawing sample_n positions from the weighted
    distribution and recording their mean pairwise distance, then sort
    ascending.  The Python sorted() builtin returns the unique ascending
    permutation of the working list, here produced by insertion sort. -/
def build_distance_distribution (choice : ℕ → ℤ) (sample_n max_iter : ℕ) : List ℚ :=
  List.insertionSort (· ≤ ·)
    ((List.range max_iter).map (fun i =>
      get_mean_distance_between_positions (iteration_draw choice sample_n i)))

/-- Embeds AnalyseDeNovos.analyse_de_novos.  Fewer than two de novos yield
    the sentinel pair of NA strings.  Otherwise the null distribution is
    built, the observed positions are converted (errors propagate), the
    observed mean distance is computed, and the p-value is the right
    insertion index of the observed distance divided by the distribution
    length; an empty distribution makes that division raise
    ZeroDivisionError.  The source guards the final formatting with the
    comparison of type(observed_distance) against the string literal named
    after the string type, which is never equal to a type object, so the
    one-decimal format is always applied. -/
def analyse_de_novos (t : Transcript) (choice : ℕ → ℤ) (max_iter : ℕ)
    (de_novos : List ℤ) : Except PyError (String × (String ⊕ ℚ)) :=
  if de_novos.length < 2 then .ok ("NA", Sum.inl "NA")
  else
    let dist := build_distance_distribution choice de_novos.length max_iter
    match convert_de_novos_to_cds_positions t de_novos with
    | .error e => .error e
    | .ok cds_positions =>
      let observed_distance := get_mean_distance_between_positions cds_positions
      let pos := bisect_right dist observed_distance
      if dist.length = 0 then .error .zeroDivisionError
      else .ok (format_one_dp observed_distance, Sum.inr ((pos : ℚ) / (dist.length : ℚ)))

/-- Interface of the site_weights object: the three per-consequence
    WeightedChoice objects, each modelled by its draw stream.
    Modelled from the spec: the SiteRates class and the compiled
    WeightedChoice sampler are outside the analysed sources; section 4.1 of
    the spec describes choice() as drawing one CDS position per call. -/
structure SiteWeights where
  get_missense_rates_for_gene : ℕ → ℤ
  get_nonsense_rates_for_gene : ℕ → ℤ
  get_functional_rates_for_gene : ℕ → ℤ

/-- State of an AnalyseDeNovos instance as set by the constructor. -/
structure AnalyseDeNovos where
  transcript : Transcript
  site_weights : SiteWeights
  max_iter : ℕ

/-- Embeds AnalyseDeNovos.analyse_missense. -/
def AnalyseDeNovos.analyse_missense (s : AnalyseDeNovos) (de_novo_events : List ℤ) :
    Except PyError (String × (String ⊕ ℚ)) :=
  analyse_de_novos s.transcript s.site_weights.get_missense_rates_for_gene
    s.max_iter de_novo_events

/-- Embeds AnalyseDeNovos.analyse_nonsense. -/
def AnalyseDeNovos.analyse_nonsense (s : AnalyseDeNovos) (de_novo_events : List ℤ) :
    Except PyError (String × (String ⊕ ℚ)) :=
  analyse_de_novos s.transcript s.site_weights.get_nonsense_rates_for_gene
    s.max_iter de_novo_events

/-- Embeds AnalyseDeNovos.analyse_functional. -/
def AnalyseDeNovos.analyse_functional (s : AnalyseDeNovos) (de_novo_events : List ℤ) :
    Except PyError (String × (String ⊕ ℚ)) :=
  analyse_de_novos s.transcript s.site_weights.get_functional_rates_for_gene
    s.max_iter de_novo_events

/-- Interface of the transcript methods used by the conservation-score
    loader.  Modelled from the spec: the Interval class is an external
    collaborator outside the analysed sources.  get_coding_distance returns
    none where the source raises AssertionError. -/
structure ConsTranscript where
  get_cds_start : ℤ
  get_cds_end : ℤ
  get_coding_distance : ℤ → ℤ → Option ℤ
  get_position_on_chrom : ℤ → ℤ

/-- Embeds ConservationMethods.add_conservation_scores.  The score
    dictionary is modelled by its key list (for the min and max builtins,
    which raise ValueError on an empty dictionary) and its lookup function
    (none models the KeyError of a missing key).  The guard of the source
    compares the CDS chromosome end against the maximum scored position
    twice, with the two redundant disjuncts of claim C9, and never uses the
    minimum scored position; on success the scores for CDS offsets
    0 .. cds_length are collected in order. -/
def add_conservation_scores (t : ConsTranscript) (score_keys : List ℤ)
    (scores : ℤ → Option ℚ) : Except PyError (List (ℕ × ℚ)) :=
  match t.get_coding_distance t.get_cds_start t.get_cds_end with
  | none => .error .assertionError
  | some cds_length =>
    match score_keys.min?, score_keys.max? with
    | some _, some cons_end =>
      if t.get_cds_end > cons_end ∨ cons_end < t.get_cds_end then
        .error (.valueError "no conservation data for CDS")
      else
        mapE (fun (cds_pos : ℕ) =>
          match scores (t.get_position_on_chrom ((cds_pos : ℕ) : ℤ)) with
          | some s => .ok (cds_pos, s)
          | none => .error .keyError)
          (List.range (cds_length + 1).toNat)
    | _, _ => .error (.valueError "empty sequence")

/-- Concrete transcript used by the witnesses: a single CDS interval
    covering chromosome positions 100 to 200, CDS offsets counted from
    position 100, and one exon with boundaries 100 and 200. -/
def tA : Transcript :=
  ⟨100,
   fun a b => if (100 ≤ a ∧ a ≤ 200) ∧ (100 ≤ b ∧ b ≤ 200) then some (b - a) else none,
   fun _ => (100, 200),
   "GENEA"⟩

/-- Concrete transcript for the counterexample of claim C6: one exon with
    boundaries 10 and 20, CDS offsets counted from position 10. -/
def tB : Transcript :=
  ⟨10,
   fun a b => if (10 ≤ a ∧ a ≤ 20) ∧ (10 ≤ b ∧ b ≤ 20) then some (b - a) else none,
   fun _ => (10, 20),
   "GENEB"⟩

/-- Concrete site weights used by the witnesses: every draw stream returns
    a constant CDS position. -/
def wA : SiteWeights := ⟨fun _ => 5, fun _ => 5, fun _ => 5⟩

/-- Concrete AnalyseDeNovos state used by the witnesses. -/
def sA : AnalyseDeNovos := ⟨tA, wA, 1⟩

/-- Concrete conservation transcript used by the witness of claim C9: CDS
    from chromosome position 0 to 10, identity chromosome projection. -/
def cT : ConsTranscript :=
  ⟨0, 10, fun a b => some (b - a), fun p => p⟩

/-! Helper lemmas about the distance metric. -/

lemma sum_map_eq_sum_range (f : ℤ → ℤ) (xs : List ℤ) :
    (xs.map f).sum = ∑ j ∈ Finset.range xs.length, f (xs.getD j 0) := by
  induction xs with
  | nil => simp
  | cons x xs ih =>
    rw [List.map_cons, List.sum_cons, List.length_cons, Finset.sum_range_succ']
    simp only [List.getD_cons_succ, List.getD_cons_zero]
    rw [ih]
    exact add_comm _ _

lemma pairwiseAbsSum_cons (x : ℤ) (xs : List ℤ) :
    pairwiseAbsSum (x :: xs) = (xs.map (fun y => |x - y|)).sum + pairwiseAbsSum xs := by
  unfold pairwiseAbsSum
  rw [sum_map_eq_sum_range (fun y => |x - y|) xs]
  rw [List.length_cons, Finset.sum_range_succ']
  have hB : (∑ j ∈ Finset.range (xs.length + 1),
      if 0 < j then |(x :: xs).getD 0 0 - (x :: xs).getD j 0| else 0) =
      ∑ j ∈ Finset.range xs.length, |x - xs.getD j 0| := by
    rw [Finset.sum_range_succ']
    simp [List.getD_cons_succ, List.getD_cons_zero]
  have hA : (∑ i ∈ Finset.range xs.length, ∑ j ∈ Finset.range (xs.length + 1),
      if i + 1 < j then |(x :: xs).getD (i + 1) 0 - (x :: xs).getD j 0| else 0) =
      ∑ i ∈ Finset.range xs.length, ∑ j ∈ Finset.range xs.length,
        if i < j then |xs.getD i 0 - xs.getD j 0| else 0 := by
    refine Finset.sum_congr rfl (fun i _ => ?_)
    rw [Finset.sum_range_succ']
    simp [List.getD_cons_succ, Nat.add_lt_add_iff_right]
  rw [hA, hB]
  exact add_comm _ _

lemma pairs_map_sum (l : List ℤ) :
    ((pairs l).map (fun p => |p.1 - p.2|)).sum = pairwiseAbsSum l := by
  induction l with
  | nil => simp [pairs, pairwiseAbsSum]
  | cons x xs ih =>
    rw [pairwiseAbsSum_cons, pairs, List.map_append, List.sum_append, List.map_map, ih]
    rfl

lemma pairs_length (l : List ℤ) : (pairs l).length = Nat.choose l.length 2 := by
  induction l with
  | nil => simp [pairs]
  | cons x xs ih =>
    rw [pairs, List.length_append, List.length_map, ih, List.length_cons,
      Nat.choose_succ_succ, Nat.choose_one_right]

/-! Helper lemmas about binary search on a sorted list. -/

lemma sorted_getD_le (a : List ℚ) (hs : a.Sorted (· ≤ ·)) {i j : ℕ} (hij : i ≤ j)
    (hj : j < a.length) : a.getD i 0 ≤ a.getD j 0 := by
  have hi : i < a.length := lt_of_le_of_lt hij hj
  rw [List.getD_eq_getElem a 0 hi, List.getD_eq_getElem a 0 hj]
  rcases lt_or_eq_of_le hij with hlt | heq
  · have hfin : (⟨i, hi⟩ : Fin a.length) < ⟨j, hj⟩ := hlt
    have h2 := hs.rel_get_of_lt hfin
    simpa using h2
  · subst heq
    exact le_refl _

lemma countP_eq_of_bracket (x : ℚ) :
    ∀ (a : List ℚ) (lo : ℕ), lo ≤ a.length →
      (∀ i, i < lo → a.getD i 0 ≤ x) →
      (∀ i, lo ≤ i → i < a.length → x < a.getD i 0) →
      a.countP (fun v => decide (v ≤ x)) = lo := by
  intro a
  induction a with
  | nil =>
    intro lo hlo _ _
    simp only [List.length_nil, Nat.le_zero] at hlo
    simp [hlo]
  | cons y ys ih =>
    intro lo hlo hle hgt
    cases lo with
    | zero =>
      refine List.countP_eq_zero.mpr (fun v hv => ?_)
      obtain ⟨n, hn, rfl⟩ := List.mem_iff_getElem.mp hv
      have hx := hgt n (Nat.zero_le n) hn
      rw [List.getD_eq_getElem _ 0 hn] at hx
      simpa using not_le.mpr hx
    | succ k =>
      have hy : y ≤ x := by
        have h0 := hle 0 (Nat.succ_pos k)
        simpa using h0
      rw [List.countP_cons_of_pos _ _ (by simpa using hy)]
      have hk : ys.countP (fun v => decide (v ≤ x)) = k := by
        refine ih k ?_ ?_ ?_
        · simp only [List.length_cons] at hlo
          omega
        · intro i hik
          have h1 := hle (i + 1) (Nat.succ_lt_succ hik)
          simpa [List.getD_cons_succ] using h1
        · intro i hki hilen
          have h1 := hgt (i + 1) (Nat.succ_le_succ hki)
            (by simpa using Nat.succ_lt_succ hilen)
          simpa [List.getD_cons_succ] using h1
      rw [hk]

lemma bisect_right_loop_eq (a : List ℚ) (x : ℚ) (hs : a.Sorted (· ≤ ·)) :
    ∀ (fuel lo hi : ℕ), hi - lo ≤ fuel → lo ≤ hi → hi ≤ a.length →
      (∀ i, i < lo → a.getD i 0 ≤ x) →
      (∀ i, hi ≤ i → i < a.length → x < a.getD i 0) →
      bisect_right_loop a x fuel lo hi = a.countP (fun v => decide (v ≤ x)) := by
  intro fuel
  induction fuel with
  | zero =>
    intro lo hi hfuel hlohi hhilen hle hgt
    have heq : lo = hi := by omega
    subst heq
    simp only [bisect_right_loop]
    exact (countP_eq_of_bracket x a lo (le_trans hlohi hhilen) hle
      (fun i h1 h2 => hgt i h1 h2)).symm
  | succ fuel ih =>
    intro lo hi hfuel hlohi hhilen hle hgt
    simp only [bisect_right_loop]
    by_cases hlh : lo < hi
    · rw [if_pos hlh]
      have hmlt : (lo + hi) / 2 < hi := by omega
      have hmge : lo ≤ (lo + hi) / 2 := by omega
      have hmlen : (lo + hi) / 2 < a.length := lt_of_lt_of_le hmlt hhilen
      by_cases hx : x < a.getD ((lo + hi) / 2) 0
      · rw [if_pos hx]
        refine ih lo ((lo + hi) / 2) (by omega) hmge (le_of_lt hmlen) hle ?_
        intro i hmi hilen
        exact lt_of_lt_of_le hx (sorted_getD_le a hs hmi hilen)
      · rw [if_neg hx]
        refine ih ((lo + hi) / 2 + 1) hi (by omega) (by omega) hhilen ?_ hgt
        intro i hi1
        exact le_trans (sorted_getD_le a hs (by omega) hmlen) (le_of_not_lt hx)
    · rw [if_neg hlh]
      have heq : lo = hi := by omega
      subst heq
      exact (countP_eq_of_bracket x a lo (le_trans hlohi hhilen) hle
        (fun i h1 h2 => hgt i h1 h2)).symm

lemma bisect_right_loop_le (a : List ℚ) (x : ℚ) :
    ∀ (fuel lo hi : ℕ), lo ≤ hi →
      lo ≤ bisect_right_loop a x fuel lo hi ∧ bisect_right_loop a x fuel lo hi ≤ hi := by
  intro fuel
  induction fuel with
  | zero =>
    intro lo hi h
    simp only [bisect_right_loop]
    exact ⟨le_refl lo, h⟩
  | succ fuel ih =>
    intro lo hi h
    simp only [bisect_right_loop]
    by_cases hlh : lo < hi
    · rw [if_pos hlh]
      by_cases hx : x < a.getD ((lo + hi) / 2) 0
      · rw [if_pos hx]
        have h2 := ih lo ((lo + hi) / 2) (by omega)
        exact ⟨h2.1, le_trans h2.2 (by omega)⟩
      · rw [if_neg hx]
        have h2 := ih ((lo + hi) / 2 + 1) hi (by omega)
        exact ⟨le_trans (by omega) h2.1, h2.2⟩
    · rw [if_neg hlh]
      exact ⟨le_refl lo, h⟩

lemma bisect_right_eq_countP (a : List ℚ) (x : ℚ) (hs : a.Sorted (· ≤ ·)) :
    bisect_right a x = a.countP (fun v => decide (v ≤ x)) :=
  bisect_right_loop_eq a x hs a.length 0 a.length (by omega) (Nat.zero_le _) (le_refl _)
    (fun i h => absurd h (Nat.not_lt_zero i))
    (fun i h hlen => absurd hlen (Nat.not_lt.mpr h))

lemma bisect_right_le_length (a : List ℚ) (x : ℚ) : bisect_right a x ≤ a.length :=
  (bisect_right_loop_le a x a.length 0 a.length (Nat.zero_le _)).2

/-! Helper lemmas about the simulated distribution and the main routine. -/

lemma build_distance_distribution_length (choice : ℕ → ℤ) (sample_n max_iter : ℕ) :
    (build_distance_distribution choice sample_n max_iter).length = max_iter := by
  unfold build_distance_distribution
  rw [List.length_insertionSort, List.length_map, List.length_range]

lemma build_distance_distribution_sorted (choice : ℕ → ℤ) (sample_n max_iter : ℕ) :
    (build_distance_distribution choice sample_n max_iter).Sorted (· ≤ ·) :=
  List.sorted_insertionSort _ _

lemma analyse_eq_ok (t : Transcript) (choice : ℕ → ℤ) (k : ℕ) (dn cps : List ℤ)
    (h2 : 2 ≤ dn.length)
    (hconv : convert_de_novos_to_cds_positions t dn = .ok cps) (hk : 1 ≤ k) :
    analyse_de_novos t choice k dn =
      .ok (format_one_dp (get_mean_distance_between_positions cps),
        Sum.inr ((bisect_right (build_distance_distribution choice dn.length k)
            (get_mean_distance_between_positions cps) : ℚ) /
          ((build_distance_distribution choice dn.length k).length : ℚ))) := by
  unfold analyse_de_novos
  rw [if_neg (by omega), hconv]
  simp only [build_distance_distribution_length]
  rw [if_neg (by omega : ¬ (k = 0))]

lemma get_mean_nonneg (l : List ℤ) : 0 ≤ get_mean_distance_between_positions l := by
  rcases l with _ | ⟨a, _ | ⟨b, _ | ⟨c, rest⟩⟩⟩
  · show (0 : ℚ) ≤ _ / _
    norm_num [pairs]
  · show (0 : ℚ) ≤ _ / _
    norm_num [pairs]
  · show (0 : ℚ) ≤ ((|a - b| : ℤ) : ℚ)
    exact_mod_cast abs_nonneg (a - b)
  · show (0 : ℚ) ≤ _ / _
    refine div_nonneg ?_ (by positivity)
    have hsum : 0 ≤ ((pairs (a :: b :: c :: rest)).map (fun p => |p.1 - p.2|)).sum := by
      refine List.sum_nonneg (fun z hz => ?_)
      obtain ⟨p, _, rfl⟩ := List.mem_map.mp hz
      exact abs_nonneg _
    exact_mod_cast hsum

lemma round_half_even_nonneg (q : ℚ) (hq : 0 ≤ q) : 0 ≤ round_half_even q := by
  unfold round_half_even rfloor
  have h0 : (0 : ℤ) ≤ q.num / (q.den : ℤ) :=
    Int.ediv_nonneg (Rat.num_nonneg.mpr hq) (Int.natCast_nonneg _)
  dsimp only
  split_ifs <;> omega

/-! Helper lemmas about the error-propagating loop. -/

lemma mapE_error_mem {α β : Type} (f : α → Except PyError β) (e : PyError) :
    ∀ l : List α, mapE f l = .error e → ∃ a ∈ l, f a = .error e := by
  intro l
  induction l with
  | nil => intro h; simp [mapE] at h
  | cons x xs ih =>
    intro h
    rw [mapE] at h
    rcases hfx : f x with e' | y
    · rw [hfx] at h
      dsimp only at h
      injection h with h2
      subst h2
      exact ⟨x, List.mem_cons_self x xs, hfx⟩
    · rw [hfx] at h
      rcases hrest : mapE f xs with e' | ys
      · rw [hrest] at h
        dsimp only at h
        injection h with h2
        subst h2
        obtain ⟨a, ha, hfa⟩ := ih hrest
        exact ⟨a, List.mem_cons_of_mem x ha, hfa⟩
      · rw [hrest] at h
        dsimp only at h
        exact absurd h (by simp)

/-! Evaluation lemmas for concrete witness inputs. -/

lemma mapE_singleton {α β : Type} (f : α → Except PyError β) (a : α) :
    mapE f [a] = (f a).map (fun y => [y]) := by
  rcases hfa : f a with e | y
  · simp [mapE, hfa, Except.map]
  · simp [mapE, hfa, Except.map]

lemma mean_0_3 : get_mean_distance_between_positions [0, 3] = 3 := by
  show ((|(0 : ℤ) - 3| : ℤ) : ℚ) = 3
  norm_num

lemma format_one_dp_three : format_one_dp 3 = "3.0" := by
  have h30 : (3 : ℚ) * 10 = 30 := by norm_num
  have hq : ((30 : ℚ).num / ((30 : ℚ).den : ℤ) : ℤ) = 30 := by
    norm_num [Rat.num_ofNat, Rat.den_ofNat]
  have hr : round_half_even 30 = 30 := by
    unfold round_half_even rfloor
    dsimp only
    rw [hq]
    norm_num
  unfold format_one_dp
  rw [h30, hr]
  rfl

lemma build_const : build_distance_distribution (fun _ => 5) 2 1 = [0] := by
  have h1 : iteration_draw (fun _ => (5 : ℤ)) 2 0 = [5, 5] := rfl
  have h2 : get_mean_distance_between_positions [5, 5] = 0 := by
    show ((|(5 : ℤ) - 5| : ℤ) : ℚ) = 0
    norm_num
  unfold build_distance_distribution
  rw [show List.range 1 = [0] from rfl, List.map_cons, List.map_nil, h1, h2]
  rfl

lemma bisect_single : bisect_right [0] 3 = 1 := by
  rw [bisect_right_eq_countP [0] 3 (by simp)]
  norm_num [List.countP_cons, List.countP_nil]

/-! The claims. -/

/-- C1: for a list of exactly two CDS positions the metric returned by
    get_mean_distance_between_positions is the absolute difference of the
    two positions; for a list of three or more positions it is the sum of
    the absolute pairwise differences over all unordered index pairs
    divided by C(N, 2), the arithmetic mean over all C(N, 2) unordered
    pairs. -/
theorem dnv_C1 (positions : List ℤ) :
    (∀ a b : ℤ, positions = [a, b] →
      get_mean_distance_between_positions positions = ((|a - b| : ℤ) : ℚ)) ∧
    (3 ≤ positions.length →
      get_mean_distance_between_positions positions =
        ((pairwiseAbsSum positions : ℤ) : ℚ) /
          ((Nat.choose positions.length 2 : ℕ) : ℚ)) := by
  constructor
  · rintro a b rfl
    rfl
  · intro h3
    rcases positions with _ | ⟨p, _ | ⟨q, _ | ⟨r, rest⟩⟩⟩
    · simp only [List.length_nil] at h3
      omega
    · simp only [List.length_cons, List.length_nil] at h3
      omega
    · simp only [List.length_cons, List.length_nil] at h3
      omega
    · have hrfl : get_mean_distance_between_positions (p :: q :: r :: rest) =
        ((((pairs (p :: q :: r :: rest)).map (fun pr => |pr.1 - pr.2|)).sum : ℤ) : ℚ) /
          ((((pairs (p :: q :: r :: rest)).map (fun pr => |pr.1 - pr.2|)).length : ℕ) : ℚ) := rfl
      rw [hrfl, pairs_map_sum, List.length_map, pairs_length]

/-- Witness for C1: the spec example, positions 10, 20 and 30 give the
    mean pairwise distance 40/3. -/
theorem dnv_C1_witness :
    3 ≤ ([10, 20, 30] : List ℤ).length ∧
    get_mean_distance_between_positions [10, 20, 30] = 40 / 3 := by
  refine ⟨by norm_num, ?_⟩
  rw [(dnv_C1 [10, 20, 30]).2 (by norm_num)]
  rw [show pairwiseAbsSum [10, 20, 30] = 40 by decide]
  rw [show Nat.choose ([10, 20, 30] : List ℤ).length 2 = 3 from rfl]
  norm_num

/-- C2: for a run of analyse_de_novos that reaches the significance step,
    the returned p-value is the right-biased insertion index of the
    observed mean distance in the sorted null distribution divided by the
    distribution length, and on any sorted list that insertion index
    equals the number of elements less than or equal to the probe, so the
    p-value is the fraction of simulated mean distances less than or
    equal to the observed value. -/
theorem dnv_C2 (t : Transcript) (choice : ℕ → ℤ) (k : ℕ) (dn cps : List ℤ)
    (h2 : 2 ≤ dn.length)
    (hconv : convert_de_novos_to_cds_positions t dn = .ok cps) (hk : 1 ≤ k) :
    (∀ (a : List ℚ) (x : ℚ), a.Sorted (· ≤ ·) →
      bisect_right a x = a.countP (fun v => decide (v ≤ x))) ∧
    analyse_de_novos t choice k dn =
      .ok (format_one_dp (get_mean_distance_between_positions cps),
        Sum.inr (((build_distance_distribution choice dn.length k).countP
            (fun v => decide (v ≤ get_mean_distance_between_positions cps)) : ℚ) /
          ((build_distance_distribution choice dn.length k).length : ℚ))) := by
  refine ⟨fun a x hs => bisect_right_eq_countP a x hs, ?_⟩
  rw [analyse_eq_ok t choice k dn cps h2 hconv hk,
    bisect_right_eq_countP _ _ (build_distance_distribution_sorted choice dn.length k)]

/-- Witness for C2: a concrete sorted list with ties at the probe, and a
    complete concrete run of the analysis. -/
theorem dnv_C2_witness :
    bisect_right [(0 : ℚ), 1, 1, 2] 1 =
      List.countP (fun v => decide (v ≤ (1 : ℚ))) [(0 : ℚ), 1, 1, 2] ∧
    analyse_de_novos tA (fun _ => 5) 1 [100, 103] =
      .ok (format_one_dp (get_mean_distance_between_positions [0, 3]),
        Sum.inr (((build_distance_distribution (fun _ => 5) 2 1).countP
            (fun v => decide (v ≤ get_mean_distance_between_positions [0, 3])) : ℚ) /
          ((build_distance_distribution (fun _ => 5) 2 1).length : ℚ))) := by
  have h := dnv_C2 tA (fun _ => 5) 1 [100, 103] [0, 3] (by norm_num) rfl (by norm_num)
  exact ⟨h.1 [0, 1, 1, 2] 1 (by norm_num [List.sorted_cons]), h.2⟩

/-- C3: the null distribution has length equal to the iteration count and
    is sorted ascending; it is a permutation of the per-iteration mean
    pairwise distances, where iteration i draws exactly sample_n positions
    from the weighted stream, and the draw of iteration i depends only on
    the block of the stream reserved for that iteration, so iterations are
    independent of one another. -/
theorem dnv_C3 (choice : ℕ → ℤ) (sample_n max_iter : ℕ) (hN : 2 ≤ sample_n) :
    (build_distance_distribution choice sample_n max_iter).length = max_iter ∧
    (build_distance_distribution choice sample_n max_iter).Sorted (· ≤ ·) ∧
    (build_distance_distribution choice sample_n max_iter).Perm
      ((List.range max_iter).map (fun i =>
        get_mean_distance_between_positions (iteration_draw choice sample_n i))) ∧
    (∀ i : ℕ, (iteration_draw choice sample_n i).length = sample_n) ∧
    (∀ (choice₂ : ℕ → ℤ) (i : ℕ),
      (∀ j, j < sample_n → choice (i * sample_n + j) = choice₂ (i * sample_n + j)) →
      iteration_draw choice sample_n i = iteration_draw choice₂ sample_n i) := by
  refine ⟨build_distance_distribution_length choice sample_n max_iter,
    build_distance_distribution_sorted choice sample_n max_iter,
    List.perm_insertionSort _ _, fun i => by simp [iteration_draw], ?_⟩
  intro choice₂ i hagree
  unfold iteration_draw
  exact List.map_congr_left (fun j hj => hagree j (List.mem_range.mp hj))

/-- Witness for C3 at sample size 2 and iteration count 3 on the identity
    stream. -/
theorem dnv_C3_witness :
    (build_distance_distribution (fun n => (n : ℤ)) 2 3).length = 3 ∧
    (build_distance_distribution (fun n => (n : ℤ)) 2 3).Sorted (· ≤ ·) ∧
    (iteration_draw (fun n => (n : ℤ)) 2 1).length = 2 := by
  have h := dnv_C3 (fun n => (n : ℤ)) 2 3 (by norm_num)
  exact ⟨h.1, h.2.1, h.2.2.2.1 1⟩

/-- C4: with fewer than two de novo events the clustering test returns the
    sentinel pair of NA values, never raises, for every transcript, weight
    stream and iteration count alike (so no null distribution or draw can
    influence the result), and the three consequence entry points do the
    same. -/
theorem dnv_C4 (s : AnalyseDeNovos) (t : Transcript) (choice : ℕ → ℤ) (max_iter : ℕ)
    (de_novos : List ℤ) (h : de_novos.length < 2) :
    analyse_de_novos t choice max_iter de_novos = .ok ("NA", Sum.inl "NA") ∧
    s.analyse_missense de_novos = .ok ("NA", Sum.inl "NA") ∧
    s.analyse_nonsense de_novos = .ok ("NA", Sum.inl "NA") ∧
    s.analyse_functional de_novos = .ok ("NA", Sum.inl "NA") := by
  have key : ∀ (t₂ : Transcript) (c : ℕ → ℤ) (m : ℕ),
      analyse_de_novos t₂ c m de_novos = .ok ("NA", Sum.inl "NA") := by
    intro t₂ c m
    unfold analyse_de_novos
    rw [if_pos h]
  exact ⟨key t choice max_iter, key _ _ _, key _ _ _, key _ _ _⟩

/-- Witness for C4 on a single de novo event. -/
theorem dnv_C4_witness :
    analyse_de_novos tA (fun _ => 5) 1 [7] = .ok ("NA", Sum.inl "NA") ∧
    sA.analyse_missense [7] = .ok ("NA", Sum.inl "NA") ∧
    sA.analyse_nonsense [7] = .ok ("NA", Sum.inl "NA") ∧
    sA.analyse_functional [7] = .ok ("NA", Sum.inl "NA") :=
  dnv_C4 sA tA (fun _ => 5) 1 [7] (by norm_num)

/-- C5: a position that the transcript cannot map directly into the CDS is
    mapped through the closest exon returned by the transcript: within
    2 bp of the exon start boundary (distance < 3, checked first) the
    boundary is mapped in place of the position, likewise for the exon end
    boundary, and if neither boundary is within tolerance the conversion
    raises a ValueError instead of dropping the position; the list
    conversion applies exactly this per-position step. -/
theorem dnv_C5 (t : Transcript) (pos : ℤ)
    (hfail : t.get_coding_distance t.get_cds_start pos = none) :
    (∀ d : ℤ, |(t.find_closest_exon pos).1 - pos| < 3 →
      t.get_coding_distance t.get_cds_start (t.find_closest_exon pos).1 = some d →
      convert_one t t.get_cds_start pos = .ok d) ∧
    (¬ |(t.find_closest_exon pos).1 - pos| < 3 →
      ∀ d : ℤ, |(t.find_closest_exon pos).2 - pos| < 3 →
      t.get_coding_distance t.get_cds_start (t.find_closest_exon pos).2 = some d →
      convert_one t t.get_cds_start pos = .ok d) ∧
    (¬ |(t.find_closest_exon pos).1 - pos| < 3 →
      ¬ |(t.find_closest_exon pos).2 - pos| < 3 →
      ∃ msg : String, convert_one t t.get_cds_start pos = .error (.valueError msg)) ∧
    (convert_de_novos_to_cds_positions t [pos] =
      (convert_one t t.get_cds_start pos).map (fun d => [d])) := by
  refine ⟨?_, ?_, ?_, mapE_singleton _ pos⟩
  · intro d hs hb
    unfold convert_one
    rw [hfail]
    dsimp only
    rw [if_pos hs, hb]
  · intro hns d he hb
    unfold convert_one
    rw [hfail]
    dsimp only
    rw [if_neg hns, if_pos he, hb]
  · intro hns hne
    refine ⟨"distance to exon (" ++
      toString (max |(t.find_closest_exon pos).1 - pos| |(t.find_closest_exon pos).2 - pos|) ++
      ") > 2 bp for " ++ toString pos ++ " in transcript " ++ t.get_name, ?_⟩
    unfold convert_one
    rw [hfail]
    dsimp only
    rw [if_neg hns, if_neg hne]

/-- Witness for C5: position 202 sits 2 bp beyond the exon end boundary
    200 of the witness transcript and maps to the boundary offset 100. -/
theorem dnv_C5_witness :
    convert_one tA tA.get_cds_start 202 = .ok 100 ∧
    convert_de_novos_to_cds_positions tA [202] =
      (convert_one tA tA.get_cds_start 202).map (fun d => [d]) := by
  have h := dnv_C5 tA 202 rfl
  exact ⟨h.2.1 (by decide) 100 (by decide) rfl, h.2.2.2⟩

/-- C6 (amended): an unmapped position error propagates uncaught from the
    conversion step to the caller of analyse_de_novos, and its message
    identifies the transcript, the offending position and the larger of
    the distances to the two boundaries of the closest exon, not the
    distance to the nearest exon boundary as the original claim stated. -/
theorem dnv_C6 (t : Transcript) (choice : ℕ → ℤ) (k : ℕ) (dn : List ℤ) :
    (∀ pos : ℤ, t.get_coding_distance t.get_cds_start pos = none →
      ¬ |(t.find_closest_exon pos).1 - pos| < 3 →
      ¬ |(t.find_closest_exon pos).2 - pos| < 3 →
      convert_one t t.get_cds_start pos = .error (.valueError
        ("distance to exon (" ++
          toString (max |(t.find_closest_exon pos).1 - pos|
            |(t.find_closest_exon pos).2 - pos|) ++
          ") > 2 bp for " ++ toString pos ++ " in transcript " ++ t.get_name))) ∧
    (∀ e : PyError, 2 ≤ dn.length →
      convert_de_novos_to_cds_positions t dn = .error e →
      analyse_de_novos t choice k dn = .error e) := by
  constructor
  · intro pos hfail hns hne
    unfold convert_one
    rw [hfail]
    dsimp only
    rw [if_neg hns, if_neg hne]
  · intro e h2 hconv
    unfold analyse_de_novos
    rw [if_neg (by omega), hconv]

/-- Counterexample to C6 as stated: for position 25 and the closest exon
    with boundaries 10 and 20, the nearest exon boundary is 20 at distance
    5, yet the propagated message reports the distance 15 to the farther
    boundary 10 (the source interpolates max(start_dist, end_dist)), and
    that message differs from the one that would report the nearest
    distance. -/
theorem dnv_C6_counterexample :
    analyse_de_novos tB (fun _ => 12) 1 [25, 12] =
      .error (.valueError "distance to exon (15) > 2 bp for 25 in transcript GENEB") ∧
    min |(tB.find_closest_exon 25).1 - 25| |(tB.find_closest_exon 25).2 - 25| = 5 ∧
    "distance to exon (15) > 2 bp for 25 in transcript GENEB" ≠
      "distance to exon (5) > 2 bp for 25 in transcript GENEB" := by
  refine ⟨?_, by decide, by decide⟩
  rfl

/-- Witness for C6 at the concrete transcript tB: the conversion error and
    its uncaught propagation through analyse_de_novos. -/
theorem dnv_C6_witness :
    convert_one tB tB.get_cds_start 25 = .error (.valueError
      "distance to exon (15) > 2 bp for 25 in transcript GENEB") ∧
    analyse_de_novos tB (fun _ => 12) 1 [25, 26] = .error (.valueError
      "distance to exon (15) > 2 bp for 25 in transcript GENEB") := by
  have h := dnv_C6 tB (fun _ => 12) 1 [25, 26]
  refine ⟨(h.1 25 rfl (by decide) (by decide)).trans (by rfl), ?_⟩
  exact h.2 _ (by norm_num) rfl

/-- C7: a completed run of the clustering test with at least two variants
    returns the observed mean distance formatted with exactly one decimal
    digit (the format produces an integer part, a dot and one digit
    between 0 and 9) and a p-value between 0 and 1. -/
theorem dnv_C7 (t : Transcript) (choice : ℕ → ℤ) (k : ℕ) (dn cps : List ℤ)
    (h2 : 2 ≤ dn.length)
    (hconv : convert_de_novos_to_cds_positions t dn = .ok cps) (hk : 1 ≤ k) :
    analyse_de_novos t choice k dn =
      .ok (format_one_dp (get_mean_distance_between_positions cps),
        Sum.inr ((bisect_right (build_distance_distribution choice dn.length k)
            (get_mean_distance_between_positions cps) : ℚ) /
          ((build_distance_distribution choice dn.length k).length : ℚ))) ∧
    0 ≤ ((bisect_right (build_distance_distribution choice dn.length k)
        (get_mean_distance_between_positions cps) : ℚ) /
      ((build_distance_distribution choice dn.length k).length : ℚ)) ∧
    ((bisect_right (build_distance_distribution choice dn.length k)
        (get_mean_distance_between_positions cps) : ℚ) /
      ((build_distance_distribution choice dn.length k).length : ℚ)) ≤ 1 ∧
    (∃ m : ℤ, 0 ≤ m ∧ 0 ≤ m % 10 ∧ m % 10 < 10 ∧
      format_one_dp (get_mean_distance_between_positions cps) =
        toString (m / 10) ++ "." ++ toString (m % 10) ∧
      (toString (m % 10)).length = 1) := by
  have hlen := build_distance_distribution_length choice dn.length k
  have hpos : (0 : ℚ) < ((build_distance_distribution choice dn.length k).length : ℚ) := by
    rw [hlen]
    exact_mod_cast Nat.lt_of_lt_of_le Nat.zero_lt_one hk
  refine ⟨analyse_eq_ok t choice k dn cps h2 hconv hk, ?_, ?_, ?_⟩
  · positivity
  · exact (div_le_one hpos).mpr (by exact_mod_cast bisect_right_le_length _ _)
  · refine ⟨round_half_even (get_mean_distance_between_positions cps * 10),
      round_half_even_nonneg _ (mul_nonneg (get_mean_nonneg cps) (by norm_num)),
      Int.emod_nonneg _ (by norm_num), Int.emod_lt_of_pos _ (by norm_num), rfl, ?_⟩
    have hb : 0 ≤ round_half_even (get_mean_distance_between_positions cps * 10) % 10 :=
      Int.emod_nonneg _ (by norm_num)
    have hc : round_half_even (get_mean_distance_between_positions cps * 10) % 10 < 10 :=
      Int.emod_lt_of_pos _ (by norm_num)
    set d := round_half_even (get_mean_distance_between_positions cps * 10) % 10 with hd
    have h09 : d = 0 ∨ d = 1 ∨ d = 2 ∨ d = 3 ∨ d = 4 ∨ d = 5 ∨ d = 6 ∨ d = 7 ∨
        d = 8 ∨ d = 9 := by omega
    rcases h09 with h | h | h | h | h | h | h | h | h | h <;> rw [h] <;> rfl

/-- Witness for C7: the spec scenario with observed CDS offsets 0 and 3
    reports the observed distance as the string 3.0 and the p-value 1. -/
theorem dnv_C7_witness :
    analyse_de_novos tA (fun _ => 5) 1 [100, 103] = .ok ("3.0", Sum.inr 1) ∧
    (0 : ℚ) ≤ 1 ∧ (1 : ℚ) ≤ 1 := by
  have h := dnv_C7 tA (fun _ => 5) 1 [100, 103] [0, 3] (by norm_num) rfl (by norm_num)
  refine ⟨h.1.trans ?_, by norm_num, by norm_num⟩
  have hlen2 : ([100, 103] : List ℤ).length = 2 := rfl
  rw [hlen2, mean_0_3, format_one_dp_three, build_const, bisect_single]
  norm_num

/-- C8: the three entry points are each exactly analyse_de_novos applied
    to the shared transcript, the shared iteration count and the
    corresponding consequence-class distribution, so any two of them agree
    whenever their distributions agree. -/
theorem dnv_C8 (s : AnalyseDeNovos) (dn : List ℤ) :
    s.analyse_missense dn =
      analyse_de_novos s.transcript s.site_weights.get_missense_rates_for_gene
        s.max_iter dn ∧
    s.analyse_nonsense dn =
      analyse_de_novos s.transcript s.site_weights.get_nonsense_rates_for_gene
        s.max_iter dn ∧
    s.analyse_functional dn =
      analyse_de_novos s.transcript s.site_weights.get_functional_rates_for_gene
        s.max_iter dn ∧
    (s.site_weights.get_missense_rates_for_gene = s.site_weights.get_nonsense_rates_for_gene →
      s.analyse_missense dn = s.analyse_nonsense dn) ∧
    (s.site_weights.get_nonsense_rates_for_gene = s.site_weights.get_functional_rates_for_gene →
      s.analyse_nonsense dn = s.analyse_functional dn) ∧
    (s.site_weights.get_missense_rates_for_gene = s.site_weights.get_functional_rates_for_gene →
      s.analyse_missense dn = s.analyse_functional dn) := by
  refine ⟨rfl, rfl, rfl, ?_, ?_, ?_⟩ <;> intro h <;>
    simp only [AnalyseDeNovos.analyse_missense, AnalyseDeNovos.analyse_nonsense,
      AnalyseDeNovos.analyse_functional, h]

/-- Witness for C8 on the concrete state sA, whose three streams coincide. -/
theorem dnv_C8_witness :
    sA.analyse_missense [1, 2] =
      analyse_de_novos sA.transcript sA.site_weights.get_missense_rates_for_gene
        sA.max_iter [1, 2] ∧
    sA.analyse_missense [1, 2] = sA.analyse_nonsense [1, 2] := by
  have h := dnv_C8 sA [1, 2]
  exact ⟨h.1, h.2.2.2.1 rfl⟩

/-- C9: the guard of the conservation-score loader is a disjunction of two
    copies of the same comparison, so it is equivalent to the single
    comparison; given that the coding length and the maximum scored
    position are obtained, the loader raises the no-conservation-data
    ValueError exactly when the maximum scored position is below the CDS
    end, and its result never depends on the key list beyond that maximum
    (in particular never on the minimum scored position). -/
theorem dnv_C9 (t : ConsTranscript) (keys : List ℤ) (scores : ℤ → Option ℚ)
    (L cons_end : ℤ)
    (hL : t.get_coding_distance t.get_cds_start t.get_cds_end = some L)
    (hmax : keys.max? = some cons_end) :
    ((t.get_cds_end > cons_end ∨ cons_end < t.get_cds_end) ↔ t.get_cds_end > cons_end) ∧
    (add_conservation_scores t keys scores =
        .error (.valueError "no conservation data for CDS") ↔
      cons_end < t.get_cds_end) ∧
    (∀ keys₂ : List ℤ, keys₂.max? = some cons_end →
      add_conservation_scores t keys₂ scores = add_conservation_scores t keys scores) := by
  have hmin : ∀ ks : List ℤ, ks.max? = some cons_end → ∃ m : ℤ, ks.min? = some m := by
    intro ks hks
    rcases ks with _ | ⟨a, as⟩
    · simp at hks
    · exact ⟨as.foldl min a, rfl⟩
  have heq : ∀ ks : List ℤ, ks.max? = some cons_end →
      add_conservation_scores t ks scores =
        if t.get_cds_end > cons_end ∨ cons_end < t.get_cds_end then
          .error (.valueError "no conservation data for CDS")
        else
          mapE (fun (cds_pos : ℕ) =>
            match scores (t.get_position_on_chrom ((cds_pos : ℕ) : ℤ)) with
            | some s => .ok (cds_pos, s)
            | none => .error .keyError) (List.range (L + 1).toNat) := by
    intro ks hks
    obtain ⟨m, hm⟩ := hmin ks hks
    unfold add_conservation_scores
    rw [hL, hm, hks]
  refine ⟨or_self_iff, ?_, fun keys₂ h₂ => (heq keys₂ h₂).trans (heq keys hmax).symm⟩
  rw [heq keys hmax]
  by_cases hc : cons_end < t.get_cds_end
  · rw [if_pos (Or.inl hc)]
    simp [hc]
  · rw [if_neg (by simpa [or_self_iff] using hc)]
    refine iff_of_false ?_ hc
    intro habs
    obtain ⟨a, _, ha⟩ := mapE_error_mem _ _ _ habs
    rcases hsc : scores (t.get_position_on_chrom ((a : ℕ) : ℤ)) with _ | s2 <;>
      simp [hsc] at ha

/-- Witness for C9 on the concrete conservation transcript cT: keys with
    maximum 12 at or above the CDS end 10, and invariance when the key 5
    is added without changing the maximum. -/
theorem dnv_C9_witness :
    ((cT.get_cds_end > 12 ∨ (12 : ℤ) < cT.get_cds_end) ↔ cT.get_cds_end > 12) ∧
    (add_conservation_scores cT [12] (fun _ => some 1) =
        .error (.valueError "no conservation data for CDS") ↔
      (12 : ℤ) < cT.get_cds_end) ∧
    add_conservation_scores cT [5, 12] (fun _ => some 1) =
      add_conservation_scores cT [12] (fun _ => some 1) := by
  have h := dnv_C9 cT [12] (fun _ => some 1) 10 12 rfl rfl
  exact ⟨h.1, h.2.1, h.2.2 [5, 12] (by decide)⟩

/-- C10: with two or more mappable de novos but an iteration count of
    zero, the null distribution is empty and the p-value division raises
    ZeroDivisionError, so the significance step implicitly requires at
    least one iteration. -/
theorem dnv_C10 (t : Transcript) (choice : ℕ → ℤ) (dn cps : List ℤ)
    (h2 : 2 ≤ dn.length)
    (hconv : convert_de_novos_to_cds_positions t dn = .ok cps) :
    analyse_de_novos t choice 0 dn = .error .zeroDivisionError ∧
    (build_distance_distribution choice dn.length 0).length = 0 := by
  refine ⟨?_, build_distance_distribution_length choice dn.length 0⟩
  unfold analyse_de_novos
  rw [if_neg (by omega), hconv]
  simp only [build_distance_distribution_length, if_true]

/-- Witness for C10: two mappable variants and zero iterations. -/
theorem dnv_C10_witness :
    analyse_de_novos tA (fun _ => 5) 0 [100, 103] = .error .zeroDivisionError ∧
    (build_distance_distribution (fun _ => 5) 2 0).length = 0 :=
  dnv_C10 tA (fun _ => 5) [100, 103] [0, 3] (by norm_num) rfl

end Denovonear
